import Mathlib

set_option maxHeartbeats 1000000

/-!
Verification of the weekly billing scheduler of SkydoPyInvoice
(src/invoicer.py).  The functions `get_first_weekday`,
`create_week_description`, `generate_weekly_schedule`, `get_invoice_items`
and the payload mapping of `SkydoAPI.choose_items` are embedded below.

Dates are modelled exactly as Python `datetime.date` values: a
(year, month, day) triple in the proleptic Gregorian calendar, valid in
the range 0001-01-01 .. 9999-12-31.  `Date.toOrdinal` is the standard
rata-die ordinal (0001-01-01 has ordinal 1) and `Date.weekday` uses the
Python convention Monday = 0 .. Sunday = 6.  Stepping a date past
9999-12-31 signals `PyErr.overflowError`, as `datetime` raises
OverflowError there; constructing a date from an invalid (year, month)
signals `PyErr.valueError`, as the `datetime` constructor raises
ValueError.  The `while` loops of the source are modelled by fueled
recursion with generous fixed fuel (the source loops take at most 32
inner and 6 outer iterations); exhausted fuel would surface as the
distinguished `PyErr.fuelOut`, which is proved absent on the valid
domain.
-/

/-- Leap-year predicate of the Gregorian calendar, as used by Python
`datetime` (equivalently `calendar.isleap`). -/
def isLeap (y : Nat) : Prop := y % 4 = 0 ∧ (y % 100 ≠ 0 ∨ y % 400 = 0)

instance (y : Nat) : Decidable (isLeap y) := by
  unfold isLeap
  infer_instance

/-- Number of days of month `m` of year `y` in the Gregorian calendar. -/
def daysInMonth (y m : Nat) : Nat :=
  if m = 2 then (if isLeap y then 29 else 28)
  else if m = 4 ∨ m = 6 ∨ m = 9 ∨ m = 11 then 30
  else 31

/-- Number of days of year `y` that precede the first day of month `m`. -/
def daysBeforeMonth (y m : Nat) : Nat :=
  ((List.range' 1 (m - 1)).map (daysInMonth y)).sum

/-- Model of a Python `datetime` value at day granularity (the scheduler
never looks at the time-of-day fields). -/
structure Date where
  year : Nat
  month : Nat
  day : Nat
deriving DecidableEq

/-- Proleptic Gregorian ordinal of a date: 0001-01-01 has ordinal 1,
matching Python `date.toordinal`. -/
def Date.toOrdinal (d : Date) : Nat :=
  365 * (d.year - 1) + (d.year - 1) / 4 - (d.year - 1) / 100 + (d.year - 1) / 400
    + daysBeforeMonth d.year d.month + d.day

/-- Weekday of a date with the Python `date.weekday` convention:
Monday = 0, ..., Saturday = 5, Sunday = 6. -/
def Date.weekday (d : Date) : Nat := (d.toOrdinal + 6) % 7

/-- Errors the Python code can raise while computing the schedule:
ValueError from the `datetime` constructor, OverflowError from date
arithmetic past `datetime.max`, and the fuel-exhaustion marker of the
loop model (proved unreachable on the valid domain). -/
inductive PyErr where
  | valueError
  | overflowError
  | fuelOut
deriving DecidableEq

deriving instance DecidableEq for Except

/-- Validity of a (year, month) input pair for `datetime(year, month, 1)`:
Python accepts MINYEAR = 1 .. MAXYEAR = 9999 and month 1 .. 12. -/
def ValidYM (y m : Nat) : Prop := 1 ≤ y ∧ y ≤ 9999 ∧ 1 ≤ m ∧ m ≤ 12

instance (y m : Nat) : Decidable (ValidYM y m) := by
  unfold ValidYM
  infer_instance

/-- Model of `d + timedelta(days=1)`: step to the next calendar day, with
OverflowError past 9999-12-31. -/
def nextDay (d : Date) : Except PyErr Date :=
  if d.day < daysInMonth d.year d.month then .ok ⟨d.year, d.month, d.day + 1⟩
  else if d.month < 12 then .ok ⟨d.year, d.month + 1, 1⟩
  else if d.year < 9999 then .ok ⟨d.year + 1, 1, 1⟩
  else .error .overflowError

/-- Model of `d - timedelta(days=1)`: step to the previous calendar day,
with OverflowError before 0001-01-01. -/
def prevDay (d : Date) : Except PyErr Date :=
  if 1 < d.day then .ok ⟨d.year, d.month, d.day - 1⟩
  else if 1 < d.month then .ok ⟨d.year, d.month - 1, daysInMonth d.year (d.month - 1)⟩
  else if 1 < d.year then .ok ⟨d.year - 1, 12, 31⟩
  else .error .overflowError

/-- Model of `d + timedelta(days=k)` for `k ≥ 0`, by iterated day steps
(CPython checks the range of the final ordinal; for positive offsets the
two formulations fail on exactly the same inputs). -/
def addDays (d : Date) : Nat → Except PyErr Date
  | 0 => .ok d
  | k + 1 =>
    match nextDay d with
    | .ok d2 => addDays d2 k
    | .error e => .error e

/-- Embedding of `get_invoice_items.get_first_weekday` (src/invoicer.py
lines 258-265): `datetime(year, month, 1)`, advanced by 2 days if it is a
Saturday and by 1 day if it is a Sunday. -/
def get_first_weekday (year month : Nat) : Except PyErr Date :=
  if ValidYM year month then
    let first_day : Date := ⟨year, month, 1⟩
    if first_day.weekday = 5 then addDays first_day 2
    else if first_day.weekday = 6 then addDays first_day 1
    else .ok first_day
  else .error .valueError

/-- Two-digit zero-padded decimal rendering, as `strftime` emits for
`%m` and `%d`. -/
def pad2 (n : Nat) : String := if n < 10 then "0" ++ toString n else toString n

/-- Four-digit zero-padded decimal rendering, as `strftime` emits for
`%Y` on years up to 9999. -/
def pad4 (n : Nat) : String :=
  if n < 10 then "000" ++ toString n
  else if n < 100 then "00" ++ toString n
  else if n < 1000 then "0" ++ toString n
  else toString n

/-- Rendering of `d.strftime('%m-%d-%Y')`. -/
def fmtDate (d : Date) : String := pad2 d.month ++ "-" ++ pad2 d.day ++ "-" ++ pad4 d.year

/-- Embedding of `get_invoice_items.create_week_description`
(src/invoicer.py lines 267-268). -/
def create_week_description (start_date end_date : Date) : String :=
  fmtDate start_date ++ " - " ++ fmtDate end_date

/-- The dictionary built for each week by `generate_weekly_schedule`
(src/invoicer.py lines 290-302), field for field. -/
structure ScheduleDict where
  quantity : Nat
  igstApplicable : Bool
  description : String
  sac : Option Nat
  rate : ℚ
  igst : Option ℚ
  cgst : Option ℚ
  sgst : Option ℚ
  name : String
  unit : String
  total : ℚ
deriving DecidableEq

/-- One week block of the schedule: the loop state `current_date` /
`week_end_date` of the source iteration that produced the dictionary,
together with the dictionary itself.  The source returns only the
dictionaries; the two dates are the values of the loop variables when
`schedule_dict` is appended, recorded so that the specification can
speak about the date range a block covers. -/
structure Block where
  start_date : Date
  end_date : Date
  dict : ScheduleDict
deriving DecidableEq

/-- Embedding of the inner `while` of `generate_weekly_schedule`
(src/invoicer.py lines 280-282): count consecutive weekdays of the
target month, stepping one day at a time.  The first argument is the
target month, then fuel, then the accumulated `days_in_week` and the
walking `week_end_date`. -/
def innerLoop (month : Nat) : Nat → Nat → Date → Except PyErr (Nat × Date)
  | 0, _, _ => .error .fuelOut
  | fuel + 1, days_in_week, week_end_date =>
    if week_end_date.weekday < 5 ∧ week_end_date.month = month then
      match nextDay week_end_date with
      | .ok d2 => innerLoop month fuel (days_in_week + 1) d2
      | .error e => .error e
    else .ok (days_in_week, week_end_date)

/-- Embedding of the outer `while` of `generate_weekly_schedule`
(src/invoicer.py lines 275-304): one iteration runs the inner loop,
moves `week_end_date` back one day, emits the schedule dictionary and
advances the cursor by 3 days. -/
def outerLoop (year month : Nat) (rate_per_hour : ℚ) (name : String) :
    Nat → List Block → Date → Except PyErr (List Block)
  | 0, _, _ => .error .fuelOut
  | fuel + 1, schedule_list, current_date =>
    if current_date.month = month then
      match innerLoop month 40 0 current_date with
      | .error e => .error e
      | .ok (days_in_week, wed) =>
        match prevDay wed with
        | .error e => .error e
        | .ok week_end_date =>
          let description := create_week_description current_date week_end_date
          let quantity := 8 * days_in_week
          let total : ℚ := (quantity : ℚ) * rate_per_hour
          let schedule_dict : ScheduleDict :=
            { quantity := quantity
              igstApplicable := true
              description := description
              sac := none
              rate := rate_per_hour
              igst := none
              cgst := none
              sgst := none
              name := name
              unit := "HOUR"
              total := total }
          match addDays week_end_date 3 with
          | .error e => .error e
          | .ok next_date =>
            outerLoop year month rate_per_hour name fuel
              (schedule_list ++
                [{ start_date := current_date, end_date := week_end_date, dict := schedule_dict }])
              next_date
    else .ok schedule_list

/-- Embedding of `get_invoice_items.generate_weekly_schedule`
(src/invoicer.py lines 270-306), instrumented to return each week block
with the `current_date` / adjusted `week_end_date` of its iteration. -/
def generate_weekly_schedule (year month : Nat) (rate_per_hour : ℚ) (name : String) :
    Except PyErr (List Block) :=
  match get_first_weekday year month with
  | .error e => .error e
  | .ok first_weekday => outerLoop year month rate_per_hour name 10 [] first_weekday

/-- Embedding of `get_invoice_items` (src/invoicer.py lines 251-309): the
source returns exactly the list of schedule dictionaries. -/
def get_invoice_items (year month : Nat) (rate_per_hour : ℚ) (name : String) :
    Except PyErr (List ScheduleDict) :=
  (generate_weekly_schedule year month rate_per_hour name).map (List.map Block.dict)

/-- One entry of the `invoiceItems` payload built by
`SkydoAPI.choose_items` (src/invoicer.py lines 657-672), field for
field. -/
structure ApiItem where
  quantity : String
  igstApplicable : Bool
  isMaxAmountBreach : Bool
  description : String
  sac : Option Nat
  rate : ℚ
  igst : Option ℚ
  cgst : Option ℚ
  sgst : Option ℚ
  name : String
  unit : String
  total : ℚ
deriving DecidableEq

/-- The per-week mapping of `SkydoAPI.choose_items` (src/invoicer.py
lines 658-672): quantity stringified, `isMaxAmountBreach` added, unit
replaced by the fixed tag "QUANTITY", other fields carried over. -/
def toApiItem (w : ScheduleDict) : ApiItem :=
  { quantity := toString w.quantity
    igstApplicable := true
    isMaxAmountBreach := false
    description := w.description
    sac := none
    rate := w.rate
    igst := none
    cgst := none
    sgst := none
    name := w.name
    unit := "QUANTITY"
    total := w.total }

/-- The `invoiceItems` list of the payload `SkydoAPI.choose_items` sends:
the weekly items of `get_invoice_items` mapped through `toApiItem`. -/
def choose_items_payload (year month : Nat) (rate : ℚ) (name : String) :
    Except PyErr (List ApiItem) :=
  (get_invoice_items year month rate name).map (List.map toApiItem)

-- Sanity checks of the date model against known calendar facts.
example : (Date.mk 2024 4 1).weekday = 0 := by decide
example : (Date.mk 2025 3 1).weekday = 5 := by decide
example : (Date.mk 2025 6 1).weekday = 6 := by decide
example : (Date.mk 9999 12 31).weekday = 4 := by decide
example : (Date.mk 9999 12 31).toOrdinal = 3652059 := by decide
example : (Date.mk 1 1 1).weekday = 0 := by decide
example : daysInMonth 2024 2 = 29 := by decide
example : daysInMonth 2025 2 = 28 := by decide
example : daysInMonth 1900 2 = 28 := by decide
example : daysInMonth 2000 2 = 29 := by decide

/-!
Day-of-month abstraction.  For a fixed valid (year, month) the whole
schedule computation only moves through days of the target month plus at
most three days of the following month.  `posD` maps a day index
1 .. dim + 3 (dim = length of the month) to the corresponding `Date`;
`innerSpecF` / `outerSpecF` / `blocksSpec` mirror the fueled loops above
on bare day indices, where a block is a triple
(start day, end day, days_in_week).  A bridge theorem below proves the
embedding equal to this abstraction, reducing every universally
quantified claim to a finite check over the 7 × 4 possible combinations
of first-day weekday and month length.
-/

/-- Day index `d` of the target month as a `Date`: days past `dim` fall
into the following month (or January of the following year). -/
def posD (y m dim d : Nat) : Date :=
  if d ≤ dim then ⟨y, m, d⟩
  else if m < 12 then ⟨y, m + 1, d - dim⟩
  else ⟨y + 1, 1, d - dim⟩

/-- Day index of the first weekday of a month whose first day has
weekday `w0`. -/
def firstD (w0 : Nat) : Nat := if w0 = 5 then 3 else if w0 = 6 then 2 else 1

/-- Day-level mirror of `innerLoop`: `w0` is the weekday of day 1, `dim`
the month length; a day index `d` is a weekday when
`(w0 + (d - 1)) % 7 < 5` and belongs to the month when `d ≤ dim`. -/
def innerSpecF (w0 dim : Nat) : Nat → Nat → Nat → Option (Nat × Nat)
  | 0, _, _ => none
  | fuel + 1, cnt, d =>
    if (w0 + (d - 1)) % 7 < 5 ∧ d ≤ dim then innerSpecF w0 dim fuel (cnt + 1) (d + 1)
    else some (cnt, d)

/-- Day-level mirror of `outerLoop`, collecting blocks as
(start day, end day, days_in_week) triples. -/
def outerSpecF (w0 dim : Nat) : Nat → List (Nat × Nat × Nat) → Nat → Option (List (Nat × Nat × Nat))
  | 0, _, _ => none
  | fuel + 1, acc, d =>
    if d ≤ dim then
      match innerSpecF w0 dim 40 0 d with
      | none => none
      | some (cnt, p) => outerSpecF w0 dim fuel (acc ++ [(d, p - 1, cnt)]) (p - 1 + 3)
    else some acc

/-- Day-level blocks of a month with first-day weekday `w0` and length
`dim`. -/
def blocksSpec (w0 dim : Nat) : Option (List (Nat × Nat × Nat)) :=
  outerSpecF w0 dim 10 [] (firstD w0)

/-- The `Block` the source iteration emits for the day-level triple
(start day, end day, days_in_week). -/
def mkBlock (y m : Nat) (r : ℚ) (nm : String) (t : Nat × Nat × Nat) : Block :=
  { start_date := ⟨y, m, t.1⟩
    end_date := ⟨y, m, t.2.1⟩
    dict :=
      { quantity := 8 * t.2.2
        igstApplicable := true
        description := create_week_description ⟨y, m, t.1⟩ ⟨y, m, t.2.1⟩
        sac := none
        rate := r
        igst := none
        cgst := none
        sgst := none
        name := nm
        unit := "HOUR"
        total := ((8 * t.2.2 : Nat) : ℚ) * r } }

/-- Inclusive list of day indices of a day-level block. -/
def dayRange (t : Nat × Nat × Nat) : List Nat := List.range' t.1 (t.2.1 + 1 - t.1)

/-- Day indices of the weekdays of a month with first-day weekday `w0`
and length `dim`. -/
def weekdayDaysB (w0 dim : Nat) : List Nat :=
  (List.range' 1 dim).filter (fun d => decide ((w0 + (d - 1)) % 7 < 5))

/-- Inclusive list of dates covered by a block, obtained by running the
day numbers from `start_date` to `end_date` within the month of
`start_date`. -/
def blockDays (b : Block) : List Date :=
  (List.range' b.start_date.day (b.end_date.day + 1 - b.start_date.day)).map
    (fun d => ⟨b.start_date.year, b.start_date.month, d⟩)

/-- Number of weekdays (Monday .. Friday) among the dates of a block. -/
def blockWeekdayCount (b : Block) : Nat :=
  ((blockDays b).filter (fun dt => decide (dt.weekday < 5))).length

/-- All Monday-to-Friday dates of the given month, in calendar order. -/
def weekdayDatesOfMonth (y m : Nat) : List Date :=
  ((List.range' 1 (daysInMonth y m)).filter (fun d => decide ((Date.mk y m d).weekday < 5))).map
    (fun d => ⟨y, m, d⟩)

/-- Boolean strict "every block ends before the next starts" test on
day-level blocks. -/
def pairwiseLtB : List (Nat × Nat × Nat) → Bool
  | [] => true
  | a :: rest => (rest.all fun b => decide (a.2.1 < b.1)) && pairwiseLtB rest

-- Sanity checks of the day-level mirror.
example : blocksSpec 0 30 = some [(1, 5, 5), (8, 12, 5), (15, 19, 5), (22, 26, 5), (29, 30, 2)] := by
  decide
example : blocksSpec 5 31 = some [(3, 7, 5), (10, 14, 5), (17, 21, 5), (24, 28, 5), (31, 31, 1)] := by
  decide
example : blocksSpec 6 30 = some [(2, 6, 5), (9, 13, 5), (16, 20, 5), (23, 27, 5), (30, 30, 1)] := by
  decide
example : blocksSpec 0 28 = some [(1, 5, 5), (8, 12, 5), (15, 19, 5), (22, 26, 5)] := by decide

/-!
Calendar arithmetic lemmas used by the bridge between the embedding and
the day-level abstraction.
-/

theorem daysInMonth_bounds (y m : Nat) : 28 ≤ daysInMonth y m ∧ daysInMonth y m ≤ 31 := by
  unfold daysInMonth
  split
  · split <;> omega
  · split <;> omega

theorem daysInMonth_12 (y : Nat) : daysInMonth y 12 = 31 := rfl

theorem Date.weekday_lt (d : Date) : d.weekday < 7 := Nat.mod_lt _ (by omega)

theorem daysBeforeMonth_succ (y m : Nat) (hm : 1 ≤ m) :
    daysBeforeMonth y (m + 1) = daysBeforeMonth y m + daysInMonth y m := by
  unfold daysBeforeMonth
  have h1 : m + 1 - 1 = (m - 1) + 1 := by omega
  rw [h1, List.range'_concat, List.map_append, List.sum_append]
  have h2 : 1 + 1 * (m - 1) = m := by omega
  rw [h2]
  simp

theorem daysBeforeMonth_12 (y : Nat) :
    daysBeforeMonth y 12 = 334 + (if isLeap y then 1 else 0) := by
  have h : List.range' 1 (12 - 1) = [1, 2, 3, 4, 5, 6, 7, 8, 9, 10, 11] := rfl
  unfold daysBeforeMonth
  rw [h]
  by_cases hL : isLeap y <;> simp [daysInMonth, hL]

theorem toOrdinal_day (y m d : Nat) (hd : 1 ≤ d) :
    (Date.mk y m d).toOrdinal = (Date.mk y m 1).toOrdinal + (d - 1) := by
  simp only [Date.toOrdinal]
  omega

theorem posD_toOrdinal (y m dim d : Nat) (hy : 1 ≤ y) (hm : 1 ≤ m) (hm2 : m ≤ 12)
    (hdim : dim = daysInMonth y m) (hd : 1 ≤ d) (hd2 : d ≤ dim + 3) :
    (posD y m dim d).toOrdinal = (Date.mk y m 1).toOrdinal + (d - 1) := by
  unfold posD
  by_cases h : d ≤ dim
  · rw [if_pos h]
    exact toOrdinal_day y m d hd
  · rw [if_neg h]
    by_cases h12 : m < 12
    · rw [if_pos h12]
      have hs := daysBeforeMonth_succ y m hm
      simp only [Date.toOrdinal]
      omega
    · rw [if_neg h12]
      have hm12 : m = 12 := by omega
      subst hm12
      have h334 := daysBeforeMonth_12 y
      have hdim31 : daysInMonth y 12 = 31 := rfl
      simp only [Date.toOrdinal]
      have h0 : daysBeforeMonth (y + 1) 1 = 0 := rfl
      rw [h0]
      by_cases hL : isLeap y
      · rw [if_pos hL] at h334
        unfold isLeap at hL
        omega
      · rw [if_neg hL] at h334
        unfold isLeap at hL
        omega

theorem posD_weekday (y m dim d : Nat) (hy : 1 ≤ y) (hm : 1 ≤ m) (hm2 : m ≤ 12)
    (hdim : dim = daysInMonth y m) (hd : 1 ≤ d) (hd2 : d ≤ dim + 3) :
    (posD y m dim d).weekday = ((Date.mk y m 1).weekday + (d - 1)) % 7 := by
  unfold Date.weekday
  rw [posD_toOrdinal y m dim d hy hm hm2 hdim hd hd2]
  omega

theorem posD_month (y m dim d : Nat) (hm : 1 ≤ m) (hm2 : m ≤ 12) :
    (posD y m dim d).month = m ↔ d ≤ dim := by
  unfold posD
  by_cases h : d ≤ dim
  · simp [h]
  · by_cases h12 : m < 12
    · simp [h, h12]
    · simp [h, h12]
      omega

theorem posD_nextDay (y m dim d : Nat) (hy : 1 ≤ y) (hy2 : y ≤ 9999) (hm : 1 ≤ m) (hm2 : m ≤ 12)
    (hdim : dim = daysInMonth y m) (hd : 1 ≤ d) (hd2 : d ≤ dim + 2)
    (hnof : ¬(y = 9999 ∧ m = 12 ∧ d = dim)) :
    nextDay (posD y m dim d) = .ok (posD y m dim (d + 1)) := by
  have hb2 := daysInMonth_bounds y (m + 1)
  have hb3 := daysInMonth_bounds (y + 1) 1
  have hb := daysInMonth_bounds y m
  subst hdim
  by_cases h1 : d < daysInMonth y m
  · rw [show posD y m (daysInMonth y m) d = ⟨y, m, d⟩ from if_pos (by omega),
      show posD y m (daysInMonth y m) (d + 1) = ⟨y, m, d + 1⟩ from if_pos (by omega)]
    unfold nextDay
    rw [if_pos h1]
  · by_cases h2 : d = daysInMonth y m
    · rw [show posD y m (daysInMonth y m) d = ⟨y, m, d⟩ from if_pos (by omega)]
      unfold nextDay
      rw [if_neg (by omega : ¬ d < daysInMonth y m)]
      by_cases h12 : m < 12
      · rw [if_pos h12]
        rw [show posD y m (daysInMonth y m) (d + 1) = ⟨y, m + 1, d + 1 - daysInMonth y m⟩ from by
          unfold posD; rw [if_neg (by omega), if_pos h12]]
        simp only [Except.ok.injEq, Date.mk.injEq, true_and, and_true]
        omega
      · rw [if_neg h12]
        have hm12 : m = 12 := by omega
        have hy9 : y < 9999 := by
          rcases Nat.lt_or_ge y 9999 with h | h
          · exact h
          · exact absurd ⟨by omega, hm12, by omega⟩ hnof
        rw [if_pos hy9]
        rw [show posD y m (daysInMonth y m) (d + 1) = ⟨y + 1, 1, d + 1 - daysInMonth y m⟩ from by
          unfold posD; rw [if_neg (by omega), if_neg h12]]
        simp only [Except.ok.injEq, Date.mk.injEq, true_and, and_true]
        omega
    · -- past the end of the month: d - dim ∈ {1, 2} is a day of the next month
      have h3 : daysInMonth y m < d := by omega
      by_cases h12 : m < 12
      · rw [show posD y m (daysInMonth y m) d = ⟨y, m + 1, d - daysInMonth y m⟩ from by
          unfold posD; rw [if_neg (by omega), if_pos h12]]
        unfold nextDay
        rw [if_pos (by simp only []; omega)]
        rw [show posD y m (daysInMonth y m) (d + 1) = ⟨y, m + 1, d + 1 - daysInMonth y m⟩ from by
          unfold posD; rw [if_neg (by omega), if_pos h12]]
        simp only [Except.ok.injEq]
        congr 1
        omega
      · rw [show posD y m (daysInMonth y m) d = ⟨y + 1, 1, d - daysInMonth y m⟩ from by
          unfold posD; rw [if_neg (by omega), if_neg h12]]
        unfold nextDay
        rw [if_pos (by simp only []; omega)]
        rw [show posD y m (daysInMonth y m) (d + 1) = ⟨y + 1, 1, d + 1 - daysInMonth y m⟩ from by
          unfold posD; rw [if_neg (by omega), if_neg h12]]
        simp only [Except.ok.injEq]
        congr 1
        omega

theorem posD_prevDay (y m dim d : Nat) (hy : 1 ≤ y) (hm : 1 ≤ m) (hm2 : m ≤ 12)
    (hdim : dim = daysInMonth y m) (hd : 2 ≤ d) (hd2 : d ≤ dim + 1) :
    prevDay (posD y m dim d) = .ok (posD y m dim (d - 1)) := by
  have hb := daysInMonth_bounds y m
  subst hdim
  by_cases h : d ≤ daysInMonth y m
  · rw [show posD y m (daysInMonth y m) d = ⟨y, m, d⟩ from if_pos h,
      show posD y m (daysInMonth y m) (d - 1) = ⟨y, m, d - 1⟩ from if_pos (by omega)]
    unfold prevDay
    rw [if_pos (by simp only []; omega)]
  · have hd1 : d = daysInMonth y m + 1 := by omega
    by_cases h12 : m < 12
    · rw [show posD y m (daysInMonth y m) d = ⟨y, m + 1, d - daysInMonth y m⟩ from by
        unfold posD; rw [if_neg (by omega), if_pos h12]]
      have hday : d - daysInMonth y m = 1 := by omega
      rw [hday]
      unfold prevDay
      rw [if_neg (by simp only []; omega), if_pos (by simp only []; omega)]
      rw [show posD y m (daysInMonth y m) (d - 1) = ⟨y, m, d - 1⟩ from if_pos (by omega)]
      simp only [Except.ok.injEq]
      have : m + 1 - 1 = m := by omega
      rw [this]
      congr 1
      omega
    · have hm12 : m = 12 := by omega
      subst hm12
      rw [show posD y 12 (daysInMonth y 12) d = ⟨y + 1, 1, d - daysInMonth y 12⟩ from by
        unfold posD; rw [if_neg (by omega), if_neg h12]]
      have hday : d - daysInMonth y 12 = 1 := by omega
      rw [hday]
      unfold prevDay
      rw [if_neg (by simp only []; omega), if_neg (by simp only []; omega),
        if_pos (by simp only []; omega)]
      rw [show posD y 12 (daysInMonth y 12) (d - 1) = ⟨y, 12, d - 1⟩ from if_pos (by omega)]
      have h31 : daysInMonth y 12 = 31 := rfl
      simp only [Except.ok.injEq, Date.mk.injEq, true_and, and_true]
      omega

theorem posD_addDays3 (y m dim d : Nat) (hy : 1 ≤ y) (hy2 : y ≤ 9999) (hm : 1 ≤ m) (hm2 : m ≤ 12)
    (hdim : dim = daysInMonth y m) (hd : 1 ≤ d) (hd2 : d ≤ dim)
    (hnot : ¬(y = 9999 ∧ m = 12)) :
    addDays (posD y m dim d) 3 = .ok (posD y m dim (d + 3)) := by
  have hstep : ∀ k, 1 ≤ k → k ≤ dim + 2 →
      nextDay (posD y m dim k) = .ok (posD y m dim (k + 1)) := by
    intro k hk1 hk2
    exact posD_nextDay y m dim k hy hy2 hm hm2 hdim hk1 hk2 (by tauto)
  show addDays (posD y m dim d) 3 = _
  unfold addDays
  rw [hstep d hd (by omega)]
  unfold addDays
  rw [hstep (d + 1) (by omega) (by omega)]
  unfold addDays
  rw [hstep (d + 2) (by omega) (by omega)]
  unfold addDays
  rfl

/-!
Behaviour of the day-level inner loop: the final position is at least the
start, at most `dim + 1`, and if any step was taken the day before the
final position is a weekday; the loop only stops where the guard fails.
-/

theorem innerSpecF_le (w0 dim : Nat) :
    ∀ f c d cnt p, innerSpecF w0 dim f c d = some (cnt, p) →
      d ≤ p ∧ p ≤ max (dim + 1) d ∧ (p = d ∨ ((w0 + (p - 2)) % 7 < 5 ∧ p ≤ dim + 1)) := by
  intro f
  induction f with
  | zero =>
    intro c d cnt p h
    simp [innerSpecF] at h
  | succ f ih =>
    intro c d cnt p h
    unfold innerSpecF at h
    by_cases hg : (w0 + (d - 1)) % 7 < 5 ∧ d ≤ dim
    · rw [if_pos hg] at h
      obtain ⟨h1, h2, h3⟩ := ih _ _ _ _ h
      refine ⟨by omega, by omega, ?_⟩
      right
      rcases h3 with h3 | h3
      · have he : p - 2 = d - 1 := by omega
        rw [he]
        exact ⟨hg.1, by omega⟩
      · exact h3
    · rw [if_neg hg] at h
      simp only [Option.some.injEq, Prod.mk.injEq] at h
      refine ⟨by omega, by omega, by omega⟩

theorem innerSpecF_stop (w0 dim : Nat) :
    ∀ f c d cnt p, innerSpecF w0 dim f c d = some (cnt, p) →
      ¬((w0 + (p - 1)) % 7 < 5 ∧ p ≤ dim) := by
  intro f
  induction f with
  | zero =>
    intro c d cnt p h
    simp [innerSpecF] at h
  | succ f ih =>
    intro c d cnt p h
    unfold innerSpecF at h
    by_cases hg : (w0 + (d - 1)) % 7 < 5 ∧ d ≤ dim
    · rw [if_pos hg] at h
      exact ih _ _ _ _ h
    · rw [if_neg hg] at h
      simp only [Option.some.injEq, Prod.mk.injEq] at h
      rw [← h.2]
      exact hg

/-- Bridge between the inner `while` of the source embedding and its
day-level mirror: on any day index of the target month (or one past it),
the fueled loops agree step for step. -/
theorem innerBridge (y m dim : Nat) (hy : 1 ≤ y) (hy2 : y ≤ 9999) (hm : 1 ≤ m) (hm2 : m ≤ 12)
    (hdim : dim = daysInMonth y m) (hnot : ¬(y = 9999 ∧ m = 12)) :
    ∀ f c d, 1 ≤ d → d ≤ dim + 1 →
      innerLoop m f c (posD y m dim d) =
        (match innerSpecF (Date.mk y m 1).weekday dim f c d with
         | none => .error .fuelOut
         | some (cnt, p) => .ok (cnt, posD y m dim p)) := by
  intro f
  induction f with
  | zero =>
    intro c d hd hd2
    simp [innerLoop, innerSpecF]
  | succ f ih =>
    intro c d hd hd2
    have hw := posD_weekday y m dim d hy hm hm2 hdim hd (by omega)
    have hmn := posD_month y m dim d hm hm2
    unfold innerLoop innerSpecF
    by_cases hg : ((Date.mk y m 1).weekday + (d - 1)) % 7 < 5 ∧ d ≤ dim
    · have hgd : (posD y m dim d).weekday < 5 ∧ (posD y m dim d).month = m := by
        rw [hw]
        exact ⟨hg.1, hmn.mpr hg.2⟩
      rw [if_pos hgd, if_pos hg]
      rw [posD_nextDay y m dim d hy hy2 hm hm2 hdim hd (by omega)
        (fun hc => hnot ⟨hc.1, hc.2.1⟩)]
      exact ih (c + 1) (d + 1) (by omega) (by omega)
    · have hgd : ¬((posD y m dim d).weekday < 5 ∧ (posD y m dim d).month = m) := by
        rw [hw]
        intro hc
        exact hg ⟨hc.1, hmn.mp hc.2⟩
      rw [if_neg hgd, if_neg hg]

/-- Bridge between the outer `while` of the source embedding and its
day-level mirror.  The cursor invariant: the cursor is a weekday or
already past the month (the source establishes it by starting on the
first weekday and advancing from a Friday by 3 days). -/
theorem outerBridge (y m dim : Nat) (r : ℚ) (nm : String) (hy : 1 ≤ y) (hy2 : y ≤ 9999)
    (hm : 1 ≤ m) (hm2 : m ≤ 12) (hdim : dim = daysInMonth y m) (hnot : ¬(y = 9999 ∧ m = 12)) :
    ∀ f accS d, 1 ≤ d → d ≤ dim + 3 →
      (((Date.mk y m 1).weekday + (d - 1)) % 7 < 5 ∨ dim < d) →
      outerLoop y m r nm f (accS.map (mkBlock y m r nm)) (posD y m dim d) =
        (match outerSpecF (Date.mk y m 1).weekday dim f accS d with
         | none => .error .fuelOut
         | some l => .ok (l.map (mkBlock y m r nm))) := by
  intro f
  induction f with
  | zero =>
    intro accS d hd hd2 hinv
    simp [outerLoop, outerSpecF]
  | succ f ih =>
    intro accS d hd hd2 hinv
    have hmn := posD_month y m dim d hm hm2
    unfold outerLoop outerSpecF
    by_cases hg : d ≤ dim
    · rw [if_pos (hmn.mpr hg), if_pos hg]
      have hwk : ((Date.mk y m 1).weekday + (d - 1)) % 7 < 5 := by
        rcases hinv with h | h
        · exact h
        · omega
      rw [innerBridge y m dim hy hy2 hm hm2 hdim hnot 40 0 d hd (by omega)]
      cases hin : innerSpecF (Date.mk y m 1).weekday dim 40 0 d with
      | none => rfl
      | some cp =>
        obtain ⟨cnt, p⟩ := cp
        have hb := innerSpecF_le (Date.mk y m 1).weekday dim 40 0 d cnt p hin
        have hstop := innerSpecF_stop (Date.mk y m 1).weekday dim 40 0 d cnt p hin
        have hne : p ≠ d := by
          intro he
          subst he
          exact hstop ⟨hwk, hg⟩
        have hp1 : d + 1 ≤ p := by
          have h1 := hb.1
          omega
        have hp2 : p ≤ dim + 1 := by
          have h2 := hb.2.1
          rw [max_eq_left (by omega : d ≤ dim + 1)] at h2
          exact h2
        have hprev : ((Date.mk y m 1).weekday + (p - 2)) % 7 < 5 := by
          rcases hb.2.2 with h3 | h3
          · exact absurd h3 hne
          · exact h3.1
        show (match prevDay (posD y m dim p) with
          | .error e => .error e
          | .ok week_end_date =>
            match addDays week_end_date 3 with
            | .error e => .error e
            | .ok next_date =>
              outerLoop y m r nm f
                (List.map (mkBlock y m r nm) accS ++
                  [{ start_date := posD y m dim d, end_date := week_end_date,
                     dict :=
                      { quantity := 8 * cnt
                        igstApplicable := true
                        description := create_week_description (posD y m dim d) week_end_date
                        sac := none
                        rate := r
                        igst := none
                        cgst := none
                        sgst := none
                        name := nm
                        unit := "HOUR"
                        total := ((8 * cnt : Nat) : ℚ) * r } }])
                next_date) =
          (match outerSpecF (Date.mk y m 1).weekday dim f (accS ++ [(d, p - 1, cnt)]) (p - 1 + 3) with
           | none => Except.error PyErr.fuelOut
           | some l => Except.ok (l.map (mkBlock y m r nm)))
        rw [posD_prevDay y m dim p hy hm hm2 hdim (by omega) hp2]
        show (match addDays (posD y m dim (p - 1)) 3 with
          | .error e => .error e
          | .ok next_date =>
            outerLoop y m r nm f
              (List.map (mkBlock y m r nm) accS ++
                [{ start_date := posD y m dim d, end_date := posD y m dim (p - 1),
                   dict :=
                    { quantity := 8 * cnt
                      igstApplicable := true
                      description := create_week_description (posD y m dim d) (posD y m dim (p - 1))
                      sac := none
                      rate := r
                      igst := none
                      cgst := none
                      sgst := none
                      name := nm
                      unit := "HOUR"
                      total := ((8 * cnt : Nat) : ℚ) * r } }])
              next_date) =
          (match outerSpecF (Date.mk y m 1).weekday dim f (accS ++ [(d, p - 1, cnt)]) (p - 1 + 3) with
           | none => Except.error PyErr.fuelOut
           | some l => Except.ok (l.map (mkBlock y m r nm)))
        rw [posD_addDays3 y m dim (p - 1) hy hy2 hm hm2 hdim (by omega) (by omega) hnot]
        rw [show posD y m dim d = ⟨y, m, d⟩ from if_pos hg,
          show posD y m dim (p - 1) = ⟨y, m, p - 1⟩ from if_pos (by omega)]
        have hacc : List.map (mkBlock y m r nm) accS ++ [mkBlock y m r nm (d, p - 1, cnt)] =
            (accS ++ [(d, p - 1, cnt)]).map (mkBlock y m r nm) := by
          rw [List.map_append]
          rfl
        show outerLoop y m r nm f
            (List.map (mkBlock y m r nm) accS ++ [mkBlock y m r nm (d, p - 1, cnt)])
            (posD y m dim (p - 1 + 3)) =
          (match outerSpecF (Date.mk y m 1).weekday dim f (accS ++ [(d, p - 1, cnt)]) (p - 1 + 3) with
           | none => Except.error PyErr.fuelOut
           | some l => Except.ok (l.map (mkBlock y m r nm)))
        rw [hacc]
        have hinv2 : (((Date.mk y m 1).weekday + (p - 1 + 3 - 1)) % 7 < 5 ∨ dim < p - 1 + 3) := by
          by_cases hpd : p ≤ dim
          · left
            have hge : ¬(((Date.mk y m 1).weekday + (p - 1)) % 7 < 5) := fun hlt =>
              hstop ⟨hlt, hpd⟩
            omega
          · right
            omega
        exact ih (accS ++ [(d, p - 1, cnt)]) (p - 1 + 3) (by omega) (by omega) hinv2
    · rw [if_neg (fun hc => hg (hmn.mp hc)), if_neg hg]

/-- The first weekday returned by `get_first_weekday` is day `firstD w0`
of the target month, where `w0` is the weekday of the 1st. -/
theorem first_weekday_eq (y m dim : Nat) (hy : 1 ≤ y) (hy2 : y ≤ 9999) (hm : 1 ≤ m)
    (hm2 : m ≤ 12) (hdim : dim = daysInMonth y m) :
    get_first_weekday y m = .ok (posD y m dim (firstD (Date.mk y m 1).weekday)) := by
  have hb := daysInMonth_bounds y m
  have hval : ValidYM y m := ⟨hy, hy2, hm, hm2⟩
  have hstep : ∀ k, 1 ≤ k → k ≤ 3 →
      nextDay (posD y m dim k) = .ok (posD y m dim (k + 1)) := by
    intro k hk1 hk2
    refine posD_nextDay y m dim k hy hy2 hm hm2 hdim hk1 (by omega) ?_
    rintro ⟨-, -, hk3⟩
    omega
  have hpos1 : (Date.mk y m 1) = posD y m dim 1 := by
    rw [show posD y m dim 1 = ⟨y, m, 1⟩ from if_pos (by omega)]
  unfold get_first_weekday
  rw [if_pos hval]
  by_cases h5 : (Date.mk y m 1).weekday = 5
  · show (if (Date.mk y m 1).weekday = 5 then addDays ⟨y, m, 1⟩ 2
      else if (Date.mk y m 1).weekday = 6 then addDays ⟨y, m, 1⟩ 1
      else .ok ⟨y, m, 1⟩) = _
    rw [if_pos h5, show firstD (Date.mk y m 1).weekday = 3 from by rw [h5]; decide]
    rw [hpos1]
    unfold addDays
    rw [hstep 1 (by omega) (by omega)]
    unfold addDays
    rw [hstep 2 (by omega) (by omega)]
    unfold addDays
    rfl
  · by_cases h6 : (Date.mk y m 1).weekday = 6
    · show (if (Date.mk y m 1).weekday = 5 then addDays ⟨y, m, 1⟩ 2
        else if (Date.mk y m 1).weekday = 6 then addDays ⟨y, m, 1⟩ 1
        else .ok ⟨y, m, 1⟩) = _
      rw [if_neg h5, if_pos h6, show firstD (Date.mk y m 1).weekday = 2 from by rw [h6]; decide]
      rw [hpos1]
      unfold addDays
      rw [hstep 1 (by omega) (by omega)]
      unfold addDays
      rfl
    · show (if (Date.mk y m 1).weekday = 5 then addDays ⟨y, m, 1⟩ 2
        else if (Date.mk y m 1).weekday = 6 then addDays ⟨y, m, 1⟩ 1
        else .ok ⟨y, m, 1⟩) = _
      rw [if_neg h5, if_neg h6,
        show firstD (Date.mk y m 1).weekday = 1 from by unfold firstD; rw [if_neg h5, if_neg h6]]
      rw [hpos1]

/-- Main bridge: on the valid domain (away from December 9999) the
embedded scheduler computes exactly the day-level blocks, mapped to
`Block` records through `mkBlock`. -/
theorem scheduleBridge (y m : Nat) (r : ℚ) (nm : String) (hy : 1 ≤ y) (hy2 : y ≤ 9999)
    (hm : 1 ≤ m) (hm2 : m ≤ 12) (hnot : ¬(y = 9999 ∧ m = 12)) :
    generate_weekly_schedule y m r nm =
      (match blocksSpec (Date.mk y m 1).weekday (daysInMonth y m) with
       | none => .error .fuelOut
       | some l => .ok (l.map (mkBlock y m r nm))) := by
  have hb := daysInMonth_bounds y m
  have hw7 : (Date.mk y m 1).weekday < 7 := Date.weekday_lt _
  unfold generate_weekly_schedule
  rw [first_weekday_eq y m (daysInMonth y m) hy hy2 hm hm2 rfl]
  show outerLoop y m r nm 10 (([] : List (Nat × Nat × Nat)).map (mkBlock y m r nm))
      (posD y m (daysInMonth y m) (firstD (Date.mk y m 1).weekday)) = _
  unfold blocksSpec
  refine outerBridge y m (daysInMonth y m) r nm hy hy2 hm hm2 rfl hnot 10 []
    (firstD (Date.mk y m 1).weekday) ?_ ?_ ?_
  · unfold firstD
    split
    · omega
    · split <;> omega
  · unfold firstD
    split
    · omega
    · split <;> omega
  · left
    unfold firstD
    split
    · omega
    · split <;> omega

/-- The block record emitted by one iteration of the outer loop, as a
named abbreviation of the record literal in `outerLoop` (used to state
intermediate goals when unfolding the loop). -/
def iterBlock (rate_per_hour : ℚ) (name : String) (days_in_week : Nat)
    (current_date week_end_date : Date) : Block :=
  { start_date := current_date
    end_date := week_end_date
    dict :=
      { quantity := 8 * days_in_week
        igstApplicable := true
        description := create_week_description current_date week_end_date
        sac := none
        rate := rate_per_hour
        igst := none
        cgst := none
        sgst := none
        name := name
        unit := "HOUR"
        total := ((8 * days_in_week : Nat) : ℚ) * rate_per_hour } }

/-- Whether `outerLoop` fails, and with which error, is independent of
the rate, the item name and the accumulated list: those data never feed
the loop control. -/
theorem outerLoop_error_indep (y m : Nat) :
    ∀ f (r r' : ℚ) (nm nm' : String) (acc acc' : List Block) (cur : Date) (e : PyErr),
      outerLoop y m r nm f acc cur = .error e → outerLoop y m r' nm' f acc' cur = .error e := by
  intro f
  induction f with
  | zero =>
    intro r r' nm nm' acc acc' cur e h
    exact h
  | succ f ih =>
    intro r r' nm nm' acc acc' cur e h
    unfold outerLoop at h ⊢
    by_cases hc : cur.month = m
    · rw [if_pos hc] at h ⊢
      cases hin : innerLoop m 40 0 cur with
      | error e2 =>
        rw [hin] at h
        exact h
      | ok dp =>
        obtain ⟨days, wed⟩ := dp
        rw [hin] at h
        replace h : (match prevDay wed with
            | Except.error e => Except.error e
            | Except.ok week_end_date =>
              match addDays week_end_date 3 with
              | Except.error e => Except.error e
              | Except.ok next_date =>
                outerLoop y m r nm f (acc ++ [iterBlock r nm days cur week_end_date]) next_date)
            = Except.error e := h
        show (match prevDay wed with
            | Except.error e => Except.error e
            | Except.ok week_end_date =>
              match addDays week_end_date 3 with
              | Except.error e => Except.error e
              | Except.ok next_date =>
                outerLoop y m r' nm' f (acc' ++ [iterBlock r' nm' days cur week_end_date]) next_date)
            = Except.error e
        cases hpv : prevDay wed with
        | error e2 =>
          rw [hpv] at h
          exact h
        | ok endD =>
          rw [hpv] at h
          replace h : (match addDays endD 3 with
              | Except.error e => Except.error e
              | Except.ok next_date =>
                outerLoop y m r nm f (acc ++ [iterBlock r nm days cur endD]) next_date)
              = Except.error e := h
          show (match addDays endD 3 with
              | Except.error e => Except.error e
              | Except.ok next_date =>
                outerLoop y m r' nm' f (acc' ++ [iterBlock r' nm' days cur endD]) next_date)
              = Except.error e
          cases had : addDays endD 3 with
          | error e2 =>
            rw [had] at h
            exact h
          | ok nxt =>
            rw [had] at h
            exact ih r r' nm nm' _ _ nxt e h
    · rw [if_neg hc] at h ⊢
      exact Except.noConfusion h

/-- December 9999: the inner day walk tries to step past `datetime.max`
(December 31, 9999 is a Friday), so the source raises OverflowError for
every rate and item name. -/
theorem gen_dec_9999 (r : ℚ) (nm : String) :
    generate_weekly_schedule 9999 12 r nm = .error .overflowError := by
  have hconc : outerLoop 9999 12 0 "" 10 [] ⟨9999, 12, 1⟩ = .error .overflowError := rfl
  unfold generate_weekly_schedule
  rw [show get_first_weekday 9999 12 = .ok ⟨9999, 12, 1⟩ from rfl]
  exact outerLoop_error_indep 9999 12 10 0 r "" nm [] [] ⟨9999, 12, 1⟩ .overflowError hconc

/-- Elimination form of the bridge: any successful run of the embedded
scheduler is the `mkBlock` image of the day-level blocks. -/
theorem gen_ok_elim (y m : Nat) (r : ℚ) (nm : String) (bs : List Block)
    (hy : 1 ≤ y) (hy2 : y ≤ 9999) (hm : 1 ≤ m) (hm2 : m ≤ 12)
    (hok : generate_weekly_schedule y m r nm = .ok bs) :
    ∃ l, blocksSpec (Date.mk y m 1).weekday (daysInMonth y m) = some l ∧
      bs = l.map (mkBlock y m r nm) ∧ ¬(y = 9999 ∧ m = 12) := by
  have hnot : ¬(y = 9999 ∧ m = 12) := by
    rintro ⟨h1, h2⟩
    subst h1
    subst h2
    rw [gen_dec_9999 r nm] at hok
    exact Except.noConfusion hok
  have hbr := scheduleBridge y m r nm hy hy2 hm hm2 hnot
  rw [hok] at hbr
  cases hsp : blocksSpec (Date.mk y m 1).weekday (daysInMonth y m) with
  | none =>
    rw [hsp] at hbr
    exact Except.noConfusion hbr
  | some l =>
    rw [hsp] at hbr
    refine ⟨l, rfl, ?_, hnot⟩
    injection hbr

/-- All day-level facts about the blocks of a month, bundled as one
Boolean check so that a single finite computation covers every claim:
partition of the weekday day-indices, ordering, per-block bounds and
counts, first and last block, Friday ends, and the block count. -/
def masterCheck (w0 dim : Nat) : Bool :=
  match blocksSpec w0 dim with
  | none => false
  | some l =>
    decide (l.flatMap dayRange = weekdayDaysB w0 dim) &&
    pairwiseLtB l &&
    l.all (fun t =>
      decide (1 ≤ t.1) && decide (t.1 ≤ t.2.1) && decide (t.2.1 ≤ dim) &&
      decide (t.2.2 = ((dayRange t).filter (fun d => decide ((w0 + (d - 1)) % 7 < 5))).length) &&
      decide (1 ≤ t.2.2) && decide (t.2.2 ≤ 5)) &&
    (match l.head? with
     | some t => decide (t.1 = firstD w0)
     | none => false) &&
    (match l.getLast? with
     | some t =>
       (weekdayDaysB w0 dim).all (fun d => decide (d ≤ t.2.1)) &&
       decide (t.2.1 ∈ weekdayDaysB w0 dim) &&
       decide (dim < t.2.1 + 3)
     | none => false) &&
    (l.dropLast.all fun t => decide ((w0 + (t.2.1 - 1)) % 7 = 4)) &&
    decide (l.length = 4 ∨ l.length = 5)

/-- The master check holds for all 7 weekday phases and all 4 month
lengths, hence for every valid month. -/
theorem masterCheck_true : ∀ w0, w0 < 7 → ∀ k, k < 4 → masterCheck w0 (28 + k) = true := by
  decide

/-- On every month shape the day-level block computation succeeds
within its fuel. -/
theorem blocksSpec_some (w0 dim : Nat) (hw : w0 < 7) (h28 : 28 ≤ dim) (h31 : dim ≤ 31) :
    ∃ l, blocksSpec w0 dim = some l := by
  have hmc := masterCheck_true w0 hw (dim - 28) (by omega)
  rw [show 28 + (dim - 28) = dim from by omega] at hmc
  unfold masterCheck at hmc
  cases hsp : blocksSpec w0 dim with
  | none =>
    rw [hsp] at hmc
    exact absurd hmc (by simp)
  | some l => exact ⟨l, rfl⟩

theorem pairwiseLtB_pairwise :
    ∀ l, pairwiseLtB l = true → List.Pairwise (fun a b : Nat × Nat × Nat => a.2.1 < b.1) l := by
  intro l
  induction l with
  | nil =>
    intro _
    exact List.Pairwise.nil
  | cons a rest ih =>
    intro h
    unfold pairwiseLtB at h
    rw [Bool.and_eq_true] at h
    refine List.Pairwise.cons ?_ (ih h.2)
    intro b hb
    exact of_decide_eq_true (List.all_eq_true.mp h.1 b hb)

/-- Unpacked, Prop-level form of `masterCheck` for any month shape. -/
theorem blocks_facts (w0 dim : Nat) (hw : w0 < 7) (h28 : 28 ≤ dim) (h31 : dim ≤ 31)
    (l : List (Nat × Nat × Nat)) (hl : blocksSpec w0 dim = some l) :
    l.flatMap dayRange = weekdayDaysB w0 dim
    ∧ List.Pairwise (fun a b : Nat × Nat × Nat => a.2.1 < b.1) l
    ∧ (∀ t ∈ l, 1 ≤ t.1 ∧ t.1 ≤ t.2.1 ∧ t.2.1 ≤ dim ∧
        t.2.2 = ((dayRange t).filter (fun d => decide ((w0 + (d - 1)) % 7 < 5))).length ∧
        1 ≤ t.2.2 ∧ t.2.2 ≤ 5)
    ∧ (∃ t l2, l = t :: l2 ∧ t.1 = firstD w0)
    ∧ (∃ t, l.getLast? = some t ∧ (∀ d ∈ weekdayDaysB w0 dim, d ≤ t.2.1) ∧
        t.2.1 ∈ weekdayDaysB w0 dim ∧ dim < t.2.1 + 3)
    ∧ (∀ t ∈ l.dropLast, (w0 + (t.2.1 - 1)) % 7 = 4)
    ∧ (l.length = 4 ∨ l.length = 5) := by
  have hmc := masterCheck_true w0 hw (dim - 28) (by omega)
  rw [show 28 + (dim - 28) = dim from by omega] at hmc
  unfold masterCheck at hmc
  rw [hl] at hmc
  simp only [Bool.and_eq_true] at hmc
  obtain ⟨⟨⟨⟨⟨⟨hA, hB⟩, hC⟩, hD⟩, hE⟩, hF⟩, hG⟩ := hmc
  refine ⟨of_decide_eq_true hA, pairwiseLtB_pairwise l hB, ?_, ?_, ?_, ?_, of_decide_eq_true hG⟩
  · intro t ht
    have h := List.all_eq_true.mp hC t ht
    simp only [Bool.and_eq_true, decide_eq_true_eq] at h
    exact ⟨h.1.1.1.1.1, h.1.1.1.1.2, h.1.1.1.2, h.1.1.2, h.1.2, h.2⟩
  · cases l with
    | nil => exact absurd hD (by simp)
    | cons t l2 =>
      refine ⟨t, l2, rfl, ?_⟩
      exact of_decide_eq_true hD
  · cases hgl : l.getLast? with
    | none =>
      rw [hgl] at hE
      exact absurd hE (by simp)
    | some t =>
      rw [hgl] at hE
      simp only [Bool.and_eq_true, decide_eq_true_eq] at hE
      refine ⟨t, rfl, ?_, hE.1.2, hE.2⟩
      intro d hd
      exact of_decide_eq_true (List.all_eq_true.mp hE.1.1 d hd)
  · intro t ht
    exact of_decide_eq_true (List.all_eq_true.mp hF t ht)

/-- The dates of a block emitted for day-level triple `t` are the dates
of the day indices of `t`. -/
theorem blockDays_mkBlock (y m : Nat) (r : ℚ) (nm : String) (t : Nat × Nat × Nat) :
    blockDays (mkBlock y m r nm t) = (dayRange t).map (fun d => ⟨y, m, d⟩) := rfl

/-- Flattening the date ranges of the emitted blocks is the date image
of flattening the day-level ranges. -/
theorem flat_blockDays (y m : Nat) (r : ℚ) (nm : String) (l : List (Nat × Nat × Nat)) :
    (l.map (mkBlock y m r nm)).flatMap blockDays =
      (l.flatMap dayRange).map (fun d => ⟨y, m, d⟩) := by
  rw [List.flatMap_map, List.map_flatMap]
  rfl

/-- On a valid month the canonical weekday-date list is the date image
of the day-level weekday list. -/
theorem weekdayDatesOfMonth_eq (y m : Nat) (hy : 1 ≤ y) (hy2 : y ≤ 9999) (hm : 1 ≤ m)
    (hm2 : m ≤ 12) :
    weekdayDatesOfMonth y m =
      (weekdayDaysB (Date.mk y m 1).weekday (daysInMonth y m)).map (fun d => ⟨y, m, d⟩) := by
  unfold weekdayDatesOfMonth weekdayDaysB
  congr 1
  apply List.filter_congr
  intro d hd
  rw [List.mem_range'] at hd
  obtain ⟨i, hi, hdi⟩ := hd
  have hd1 : 1 ≤ d := by omega
  have hd2 : d ≤ daysInMonth y m := by omega
  have hwd := posD_weekday y m (daysInMonth y m) d hy hm hm2 rfl hd1 (by omega)
  rw [show posD y m (daysInMonth y m) d = ⟨y, m, d⟩ from if_pos hd2] at hwd
  rw [hwd]

/-!
Claim theorems.
-/

/-- C1: for every valid (year, month) with 1 ≤ month ≤ 12, the blocks
returned by the scheduler partition the weekdays of that month.
Flattening the inclusive date ranges of the blocks in order yields
exactly the calendar-ordered list of Monday-to-Friday dates of the month
(so the union of the ranges is exactly the weekday set), the flattened
list has no duplicate (no date belongs to two blocks), no Saturday or
Sunday belongs to any block, and the blocks are non-overlapping and
ordered by start_date ascending. -/
theorem C1_weekday_partition (y m : Nat) (r : ℚ) (nm : String) (bs : List Block)
    (hy : 1 ≤ y) (hy2 : y ≤ 9999) (hm : 1 ≤ m) (hm2 : m ≤ 12)
    (hok : generate_weekly_schedule y m r nm = .ok bs) :
    bs.flatMap blockDays = weekdayDatesOfMonth y m
    ∧ (bs.flatMap blockDays).Nodup
    ∧ (∀ b ∈ bs, ∀ dt ∈ blockDays b, dt.weekday < 5 ∧ dt.month = m ∧ dt.year = y)
    ∧ (∀ b ∈ bs, b.start_date.day ≤ b.end_date.day)
    ∧ List.Pairwise (fun a b => a.end_date.day < b.start_date.day) bs
    ∧ List.Pairwise (fun a b => a.start_date.day < b.start_date.day) bs := by
  obtain ⟨l, hsp, hmap, hnot⟩ := gen_ok_elim y m r nm bs hy hy2 hm hm2 hok
  have hw7 := Date.weekday_lt (Date.mk y m 1)
  have hbnd := daysInMonth_bounds y m
  obtain ⟨hflat, hpair, hall, hhead, hlast, hfri, hlen⟩ :=
    blocks_facts _ _ hw7 hbnd.1 hbnd.2 l hsp
  subst hmap
  have hinj : Function.Injective (fun d : Nat => (⟨y, m, d⟩ : Date)) := by
    intro a b hab
    simpa using hab
  have hflatmap : (l.map (mkBlock y m r nm)).flatMap blockDays =
      (weekdayDaysB (Date.mk y m 1).weekday (daysInMonth y m)).map (fun d => ⟨y, m, d⟩) := by
    rw [flat_blockDays, hflat]
  refine ⟨?_, ?_, ?_, ?_, ?_, ?_⟩
  · rw [hflatmap, weekdayDatesOfMonth_eq y m hy hy2 hm hm2]
  · rw [hflatmap]
    refine List.Nodup.map hinj ?_
    exact (List.nodup_range' 1 (daysInMonth y m)).filter _
  · intro b hb dt hdt
    obtain ⟨t, ht, rfl⟩ := List.mem_map.mp hb
    rw [blockDays_mkBlock] at hdt
    obtain ⟨d, hdm, rfl⟩ := List.mem_map.mp hdt
    have hmem : d ∈ l.flatMap dayRange := List.mem_flatMap.mpr ⟨t, ht, hdm⟩
    rw [hflat] at hmem
    have hmem2 := List.mem_filter.mp hmem
    have hd12 : 1 ≤ d ∧ d ≤ daysInMonth y m := by
      have hr := hmem2.1
      rw [List.mem_range'] at hr
      obtain ⟨i, hi, hdi⟩ := hr
      omega
    have hwd := posD_weekday y m (daysInMonth y m) d hy hm hm2 rfl hd12.1 (by omega)
    rw [show posD y m (daysInMonth y m) d = ⟨y, m, d⟩ from if_pos hd12.2] at hwd
    refine ⟨?_, rfl, rfl⟩
    rw [hwd]
    exact of_decide_eq_true hmem2.2
  · intro b hb
    obtain ⟨t, ht, rfl⟩ := List.mem_map.mp hb
    exact (hall t ht).2.1
  · rw [List.pairwise_map]
    exact hpair
  · rw [List.pairwise_map]
    refine hpair.imp_of_mem ?_
    intro a b ha hb hab
    have hse := (hall a ha).2.1
    show a.1 < b.1
    omega

/-- February 2021 (a Monday-start 28-day month): the four blocks the
scheduler emits, used to witness the universally quantified claims. -/
def feb2021blocks : List Block :=
  List.map (mkBlock 2021 2 0 "") [(1, 5, 5), (8, 12, 5), (15, 19, 5), (22, 26, 5)]

theorem C1_weekday_partition_witness :
    (1 ≤ 2021 ∧ 2021 ≤ 9999 ∧ 1 ≤ 2 ∧ 2 ≤ 12 ∧
      generate_weekly_schedule 2021 2 0 "" = .ok feb2021blocks)
    ∧ (feb2021blocks.flatMap blockDays = weekdayDatesOfMonth 2021 2
      ∧ (feb2021blocks.flatMap blockDays).Nodup
      ∧ (∀ b ∈ feb2021blocks, ∀ dt ∈ blockDays b, dt.weekday < 5 ∧ dt.month = 2 ∧ dt.year = 2021)
      ∧ (∀ b ∈ feb2021blocks, b.start_date.day ≤ b.end_date.day)
      ∧ List.Pairwise (fun a b => a.end_date.day < b.start_date.day) feb2021blocks
      ∧ List.Pairwise (fun a b => a.start_date.day < b.start_date.day) feb2021blocks) :=
  ⟨⟨by omega, by omega, by omega, by omega, rfl⟩,
    C1_weekday_partition 2021 2 0 "" feb2021blocks (by omega) (by omega) (by omega) (by omega) rfl⟩

/-- The weekday count of an emitted block, computed over its dates,
equals the day-level weekday count of its day range. -/
theorem blockWeekdayCount_mkBlock (y m : Nat) (r : ℚ) (nm : String) (t : Nat × Nat × Nat)
    (hy : 1 ≤ y) (hm : 1 ≤ m) (hm2 : m ≤ 12)
    (h1 : 1 ≤ t.1) (h2 : t.2.1 ≤ daysInMonth y m) :
    blockWeekdayCount (mkBlock y m r nm t) =
      ((dayRange t).filter
        (fun d => decide (((Date.mk y m 1).weekday + (d - 1)) % 7 < 5))).length := by
  unfold blockWeekdayCount
  rw [blockDays_mkBlock, List.filter_map, List.length_map]
  congr 1
  apply List.filter_congr
  intro d hd
  unfold dayRange at hd
  rw [List.mem_range'] at hd
  obtain ⟨i, hi, hdi⟩ := hd
  have hd1 : 1 ≤ d := by omega
  have hd2 : d ≤ daysInMonth y m := by omega
  have hwd := posD_weekday y m (daysInMonth y m) d hy hm hm2 rfl hd1 (by omega)
  rw [show posD y m (daysInMonth y m) d = ⟨y, m, d⟩ from if_pos hd2] at hwd
  show decide ((Date.mk y m d).weekday < 5) = _
  rw [hwd]

/-- C2: for every valid (year, month), every non-negative rate and every
returned block, the quantity is 8 times the number of weekdays in the
inclusive [start_date, end_date] range of the block, and the total is
the quantity times the rate; in particular a zero rate gives zero totals
with quantities unchanged. -/
theorem C2_quantity_total (y m : Nat) (r : ℚ) (nm : String) (bs : List Block)
    (hy : 1 ≤ y) (hy2 : y ≤ 9999) (hm : 1 ≤ m) (hm2 : m ≤ 12) (hr : 0 ≤ r)
    (hok : generate_weekly_schedule y m r nm = .ok bs) :
    ∀ b ∈ bs, b.dict.quantity = 8 * blockWeekdayCount b
      ∧ b.dict.total = (b.dict.quantity : ℚ) * r
      ∧ (r = 0 → b.dict.total = 0) := by
  obtain ⟨l, hsp, hmap, hnot⟩ := gen_ok_elim y m r nm bs hy hy2 hm hm2 hok
  have hw7 := Date.weekday_lt (Date.mk y m 1)
  have hbnd := daysInMonth_bounds y m
  obtain ⟨-, -, hall, -, -, -, -⟩ := blocks_facts _ _ hw7 hbnd.1 hbnd.2 l hsp
  subst hmap
  intro b hb
  obtain ⟨t, ht, rfl⟩ := List.mem_map.mp hb
  obtain ⟨ht1, ht2, ht3, ht4, ht5, ht6⟩ := hall t ht
  refine ⟨?_, rfl, ?_⟩
  · show 8 * t.2.2 = 8 * blockWeekdayCount (mkBlock y m r nm t)
    rw [blockWeekdayCount_mkBlock y m r nm t hy hm hm2 ht1 ht3, ← ht4]
  · intro hr0
    show ((8 * t.2.2 : Nat) : ℚ) * r = 0
    rw [hr0, mul_zero]

theorem C2_quantity_total_witness :
    (1 ≤ 2021 ∧ 2021 ≤ 9999 ∧ 1 ≤ 2 ∧ 2 ≤ 12 ∧ (0 : ℚ) ≤ 0 ∧
      generate_weekly_schedule 2021 2 0 "" = .ok feb2021blocks)
    ∧ (∀ b ∈ feb2021blocks, b.dict.quantity = 8 * blockWeekdayCount b
        ∧ b.dict.total = (b.dict.quantity : ℚ) * 0
        ∧ ((0 : ℚ) = 0 → b.dict.total = 0)) :=
  ⟨⟨by omega, by omega, by omega, by omega, le_refl 0, rfl⟩,
    C2_quantity_total 2021 2 0 "" feb2021blocks (by omega) (by omega) (by omega) (by omega)
      (le_refl 0) rfl⟩

/-- C3: for every valid (year, month), the first returned block starts
on the 1st when the 1st is a weekday (used as-is, also mid-week), on the
3rd when the 1st is a Saturday, and on the 2nd when the 1st is a
Sunday. -/
theorem C3_first_block_start (y m : Nat) (r : ℚ) (nm : String) (bs : List Block)
    (hy : 1 ≤ y) (hy2 : y ≤ 9999) (hm : 1 ≤ m) (hm2 : m ≤ 12)
    (hok : generate_weekly_schedule y m r nm = .ok bs) :
    ∃ b bs2, bs = b :: bs2 ∧
      b.start_date = (if (Date.mk y m 1).weekday = 5 then ⟨y, m, 3⟩
        else if (Date.mk y m 1).weekday = 6 then ⟨y, m, 2⟩ else ⟨y, m, 1⟩) := by
  obtain ⟨l, hsp, hmap, hnot⟩ := gen_ok_elim y m r nm bs hy hy2 hm hm2 hok
  have hw7 := Date.weekday_lt (Date.mk y m 1)
  have hbnd := daysInMonth_bounds y m
  obtain ⟨-, -, -, hhead, -, -, -⟩ := blocks_facts _ _ hw7 hbnd.1 hbnd.2 l hsp
  obtain ⟨t, l2, rfl, ht1⟩ := hhead
  subst hmap
  refine ⟨mkBlock y m r nm t, l2.map (mkBlock y m r nm), rfl, ?_⟩
  show (⟨y, m, t.1⟩ : Date) = _
  rw [ht1]
  unfold firstD
  by_cases h5 : (Date.mk y m 1).weekday = 5
  · rw [if_pos h5, if_pos h5]
  · rw [if_neg h5, if_neg h5]
    by_cases h6 : (Date.mk y m 1).weekday = 6
    · rw [if_pos h6, if_pos h6]
    · rw [if_neg h6, if_neg h6]

/-- March 2025 (a Saturday-start 31-day month): the five blocks the
scheduler emits, the first starting on Monday March 3. -/
def mar2025blocks : List Block :=
  List.map (mkBlock 2025 3 0 "") [(3, 7, 5), (10, 14, 5), (17, 21, 5), (24, 28, 5), (31, 31, 1)]

theorem C3_first_block_start_witness :
    (1 ≤ 2025 ∧ 2025 ≤ 9999 ∧ 1 ≤ 3 ∧ 3 ≤ 12 ∧ (Date.mk 2025 3 1).weekday = 5 ∧
      generate_weekly_schedule 2025 3 0 "" = .ok mar2025blocks)
    ∧ (∃ b bs2, mar2025blocks = b :: bs2 ∧
        b.start_date = (if (Date.mk 2025 3 1).weekday = 5 then ⟨2025, 3, 3⟩
          else if (Date.mk 2025 3 1).weekday = 6 then ⟨2025, 3, 2⟩ else ⟨2025, 3, 1⟩)) :=
  ⟨⟨by omega, by omega, by omega, by omega, by decide, rfl⟩,
    C3_first_block_start 2025 3 0 "" mar2025blocks (by omega) (by omega) (by omega) (by omega) rfl⟩

/-- C4: the April 2024 scenario.  April 2024 starts on a Monday; the
scheduler returns exactly five blocks: four full Monday-to-Friday blocks
April 1-5, 8-12, 15-19, 22-26 with quantity 40 and total 2000 each, and
a final partial block April 29-30 with quantity 16 and total 800; the
returned dictionaries are exactly the dictionaries of those blocks. -/
theorem C4_april2024 :
    generate_weekly_schedule 2024 4 50 "Engineering" = .ok [
      { start_date := ⟨2024, 4, 1⟩, end_date := ⟨2024, 4, 5⟩,
        dict := { quantity := 40, igstApplicable := true,
                  description := "04-01-2024 - 04-05-2024", sac := none, rate := 50,
                  igst := none, cgst := none, sgst := none, name := "Engineering",
                  unit := "HOUR", total := 2000 } },
      { start_date := ⟨2024, 4, 8⟩, end_date := ⟨2024, 4, 12⟩,
        dict := { quantity := 40, igstApplicable := true,
                  description := "04-08-2024 - 04-12-2024", sac := none, rate := 50,
                  igst := none, cgst := none, sgst := none, name := "Engineering",
                  unit := "HOUR", total := 2000 } },
      { start_date := ⟨2024, 4, 15⟩, end_date := ⟨2024, 4, 19⟩,
        dict := { quantity := 40, igstApplicable := true,
                  description := "04-15-2024 - 04-19-2024", sac := none, rate := 50,
                  igst := none, cgst := none, sgst := none, name := "Engineering",
                  unit := "HOUR", total := 2000 } },
      { start_date := ⟨2024, 4, 22⟩, end_date := ⟨2024, 4, 26⟩,
        dict := { quantity := 40, igstApplicable := true,
                  description := "04-22-2024 - 04-26-2024", sac := none, rate := 50,
                  igst := none, cgst := none, sgst := none, name := "Engineering",
                  unit := "HOUR", total := 2000 } },
      { start_date := ⟨2024, 4, 29⟩, end_date := ⟨2024, 4, 30⟩,
        dict := { quantity := 16, igstApplicable := true,
                  description := "04-29-2024 - 04-30-2024", sac := none, rate := 50,
                  igst := none, cgst := none, sgst := none, name := "Engineering",
                  unit := "HOUR", total := 800 } }]
    ∧ get_invoice_items 2024 4 50 "Engineering" = .ok [
      { quantity := 40, igstApplicable := true,
        description := "04-01-2024 - 04-05-2024", sac := none, rate := 50,
        igst := none, cgst := none, sgst := none, name := "Engineering",
        unit := "HOUR", total := 2000 },
      { quantity := 40, igstApplicable := true,
        description := "04-08-2024 - 04-12-2024", sac := none, rate := 50,
        igst := none, cgst := none, sgst := none, name := "Engineering",
        unit := "HOUR", total := 2000 },
      { quantity := 40, igstApplicable := true,
        description := "04-15-2024 - 04-19-2024", sac := none, rate := 50,
        igst := none, cgst := none, sgst := none, name := "Engineering",
        unit := "HOUR", total := 2000 },
      { quantity := 40, igstApplicable := true,
        description := "04-22-2024 - 04-26-2024", sac := none, rate := 50,
        igst := none, cgst := none, sgst := none, name := "Engineering",
        unit := "HOUR", total := 2000 },
      { quantity := 16, igstApplicable := true,
        description := "04-29-2024 - 04-30-2024", sac := none, rate := 50,
        igst := none, cgst := none, sgst := none, name := "Engineering",
        unit := "HOUR", total := 800 }] := by
  have h : generate_weekly_schedule 2024 4 50 "Engineering" =
      .ok (List.map (mkBlock 2024 4 50 "Engineering")
        [(1, 5, 5), (8, 12, 5), (15, 19, 5), (22, 26, 5), (29, 30, 2)]) := rfl
  constructor
  · rw [h]
    norm_num [mkBlock]
    exact ⟨by decide, by decide, by decide, by decide, by decide⟩
  · unfold get_invoice_items
    rw [h]
    show Except.ok ((List.map (mkBlock 2024 4 50 "Engineering")
      [(1, 5, 5), (8, 12, 5), (15, 19, 5), (22, 26, 5), (29, 30, 2)]).map Block.dict) = _
    norm_num [mkBlock]
    exact ⟨by decide, by decide, by decide, by decide, by decide⟩

/-- C5 counterexample: (9999, 12) is a representable (year, month) pair
for the 1st-of-month date construction, yet the function raises an
OverflowError from the day walk rather than returning a complete
sequence; so the claimed "raises if and only if the pair cannot be
represented" equivalence fails. -/
theorem C5_counterexample :
    ValidYM 9999 12 ∧ get_invoice_items 9999 12 1 "x" = .error .overflowError := by
  refine ⟨by decide, ?_⟩
  unfold get_invoice_items
  rw [gen_dec_9999 1 "x"]
  rfl

/-- C5 (amended): the function raises ValueError exactly on the
(year, month) pairs the date construction rejects, raises OverflowError
on (9999, 12) where the day-by-day walk steps past the maximum
representable date, and on every other representable pair returns a
complete sequence regardless of the rate (zero, negative or fractional
rates included); errors are raised before any output is produced. -/
theorem C5_error_characterization (y m : Nat) (r : ℚ) (nm : String) :
    (¬ ValidYM y m → get_invoice_items y m r nm = .error .valueError)
    ∧ (ValidYM y m → ¬(y = 9999 ∧ m = 12) → ∃ ws, get_invoice_items y m r nm = .ok ws)
    ∧ (y = 9999 → m = 12 → get_invoice_items y m r nm = .error .overflowError) := by
  refine ⟨?_, ?_, ?_⟩
  · intro hinv
    unfold get_invoice_items generate_weekly_schedule get_first_weekday
    rw [if_neg hinv]
    rfl
  · rintro ⟨hy, hy2, hm, hm2⟩ hnot
    have hw7 := Date.weekday_lt (Date.mk y m 1)
    have hbnd := daysInMonth_bounds y m
    obtain ⟨l, hsp⟩ := blocksSpec_some (Date.mk y m 1).weekday (daysInMonth y m) hw7 hbnd.1 hbnd.2
    have hbr := scheduleBridge y m r nm hy hy2 hm hm2 hnot
    rw [hsp] at hbr
    refine ⟨(l.map (mkBlock y m r nm)).map Block.dict, ?_⟩
    unfold get_invoice_items
    rw [hbr]
    rfl
  · intro h9 h12
    subst h9
    subst h12
    unfold get_invoice_items
    rw [gen_dec_9999 r nm]
    rfl

theorem C5_error_characterization_witness :
    (¬ ValidYM 0 5 ∧ get_invoice_items 0 5 1 "w" = .error .valueError)
    ∧ (ValidYM 2021 2 ∧ ¬((2021 : Nat) = 9999 ∧ (2 : Nat) = 12) ∧
        ∃ ws, get_invoice_items 2021 2 1 "w" = .ok ws) :=
  ⟨⟨by decide, (C5_error_characterization 0 5 1 "w").1 (by decide)⟩,
    ⟨by decide, by omega,
      (C5_error_characterization 2021 2 1 "w").2.1 (by decide) (by omega)⟩⟩

/-!
Length facts about the zero-padded renderings, via bounds on the digit
list produced by `Nat.toDigitsCore`.
-/

theorem toDigitsCore_len_le (b : Nat) :
    ∀ (f n : Nat) (l : List Char), l.length ≤ (Nat.toDigitsCore b f n l).length := by
  intro f
  induction f with
  | zero =>
    intro n l
    exact Nat.le_refl _
  | succ f ih =>
    intro n l
    show l.length ≤ (if n / b = 0 then (n % b).digitChar :: l
      else Nat.toDigitsCore b f (n / b) ((n % b).digitChar :: l)).length
    by_cases h : n / b = 0
    · rw [if_pos h]
      simp
    · rw [if_neg h]
      calc l.length ≤ ((n % b).digitChar :: l).length := by simp
        _ ≤ _ := ih (n / b) _

theorem toDigitsCore_len_ge (e : Nat) : ∀ (f n : Nat) (l : List Char),
    10 ^ e ≤ n → e < f → e + 1 + l.length ≤ (Nat.toDigitsCore 10 f n l).length := by
  induction e with
  | zero =>
    intro f n l h1 h2
    obtain ⟨f2, rfl⟩ : ∃ f2, f = f2 + 1 := ⟨f - 1, by omega⟩
    show 0 + 1 + l.length ≤ (if n / 10 = 0 then (n % 10).digitChar :: l
      else Nat.toDigitsCore 10 f2 (n / 10) ((n % 10).digitChar :: l)).length
    by_cases h : n / 10 = 0
    · rw [if_pos h]
      simp only [List.length_cons]
      omega
    · rw [if_neg h]
      have hle := toDigitsCore_len_le 10 f2 (n / 10) ((n % 10).digitChar :: l)
      simp at hle ⊢
      omega
  | succ e ih =>
    intro f n l h1 h2
    obtain ⟨f2, rfl⟩ : ∃ f2, f = f2 + 1 := ⟨f - 1, by omega⟩
    have h10 : 10 ≤ n := by
      have hp : 10 ^ 1 ≤ 10 ^ (e + 1) := Nat.pow_le_pow_right (by omega) (by omega)
      rw [pow_one] at hp
      omega
    have hn10 : ¬ n / 10 = 0 := by omega
    show e + 1 + 1 + l.length ≤ (if n / 10 = 0 then (n % 10).digitChar :: l
      else Nat.toDigitsCore 10 f2 (n / 10) ((n % 10).digitChar :: l)).length
    rw [if_neg hn10]
    have hdiv : 10 ^ e ≤ n / 10 := by
      rw [Nat.le_div_iff_mul_le (by omega)]
      calc 10 ^ e * 10 = 10 ^ (e + 1) := by ring
        _ ≤ n := h1
    have hih := ih f2 (n / 10) ((n % 10).digitChar :: l) hdiv (by omega)
    simp at hih ⊢
    omega

theorem repr_len_ge (n e : Nat) (h : 10 ^ e ≤ n) : e + 1 ≤ (Nat.repr n).length := by
  have he : e < n + 1 := by
    have hp := Nat.lt_pow_self (by omega : 1 < 10) e
    omega
  have hg := toDigitsCore_len_ge e (n + 1) n [] h he
  show e + 1 ≤ (Nat.toDigitsCore 10 (n + 1) n []).length
  simpa using hg

theorem pad2_length (n : Nat) (h : n < 100) : (pad2 n).length = 2 := by
  unfold pad2
  by_cases h1 : n < 10
  · rw [if_pos h1, String.length_append]
    have hts : (toString n).length = 1 := by
      interval_cases n <;> rfl
    rw [hts]
    rfl
  · rw [if_neg h1]
    have hub := Nat.repr_length n 2 (by omega) (by omega)
    have hlb := repr_len_ge n 1 (by rw [pow_one]; omega)
    show (Nat.repr n).length = 2
    omega

theorem pad4_length (n : Nat) (h : n < 10000) : (pad4 n).length = 4 := by
  unfold pad4
  by_cases h1 : n < 10
  · rw [if_pos h1, String.length_append]
    have hts : (toString n).length = 1 := by
      interval_cases n <;> rfl
    rw [hts]
    rfl
  · rw [if_neg h1]
    by_cases h2 : n < 100
    · rw [if_pos h2, String.length_append]
      have hub := Nat.repr_length n 2 (by omega) (by omega)
      have hlb := repr_len_ge n 1 (by rw [pow_one]; omega)
      have hts : (toString n).length = 2 := by
        show (Nat.repr n).length = 2
        omega
      rw [hts]
      rfl
    · rw [if_neg h2]
      by_cases h3 : n < 1000
      · rw [if_pos h3, String.length_append]
        have hub := Nat.repr_length n 3 (by omega) (by omega)
        have hlb := repr_len_ge n 2 (by norm_num; omega)
        have hts : (toString n).length = 3 := by
          show (Nat.repr n).length = 3
          omega
        rw [hts]
        rfl
      · rw [if_neg h3]
        have hub := Nat.repr_length n 4 (by omega) (by omega)
        have hlb := repr_len_ge n 3 (by norm_num; omega)
        show (Nat.repr n).length = 4
        omega

/-- C6: for every valid (year, month) and every returned block, the
number of weekdays covered by the block is between 1 and 5, both block
dates lie within the requested month (no block spans into the following
calendar month), and the last block ends on the last weekday on or
before the final day of the month. -/
theorem C6_block_bounds (y m : Nat) (r : ℚ) (nm : String) (bs : List Block)
    (hy : 1 ≤ y) (hy2 : y ≤ 9999) (hm : 1 ≤ m) (hm2 : m ≤ 12)
    (hok : generate_weekly_schedule y m r nm = .ok bs) :
    (∀ b ∈ bs, 1 ≤ blockWeekdayCount b ∧ blockWeekdayCount b ≤ 5
      ∧ b.start_date.month = m ∧ b.start_date.year = y
      ∧ b.end_date.month = m ∧ b.end_date.year = y
      ∧ 1 ≤ b.start_date.day ∧ b.start_date.day ≤ b.end_date.day
      ∧ b.end_date.day ≤ daysInMonth y m)
    ∧ (∃ b, bs.getLast? = some b ∧ b.end_date ∈ weekdayDatesOfMonth y m
        ∧ ∀ dt ∈ weekdayDatesOfMonth y m, dt.day ≤ b.end_date.day) := by
  obtain ⟨l, hsp, hmap, hnot⟩ := gen_ok_elim y m r nm bs hy hy2 hm hm2 hok
  have hw7 := Date.weekday_lt (Date.mk y m 1)
  have hbnd := daysInMonth_bounds y m
  obtain ⟨-, -, hall, -, hlast, -, -⟩ := blocks_facts _ _ hw7 hbnd.1 hbnd.2 l hsp
  subst hmap
  constructor
  · intro b hb
    obtain ⟨t, ht, rfl⟩ := List.mem_map.mp hb
    obtain ⟨ht1, ht2, ht3, ht4, ht5, ht6⟩ := hall t ht
    have hcnt : blockWeekdayCount (mkBlock y m r nm t) = t.2.2 := by
      rw [blockWeekdayCount_mkBlock y m r nm t hy hm hm2 ht1 ht3, ← ht4]
    rw [hcnt]
    exact ⟨ht5, ht6, rfl, rfl, rfl, rfl, ht1, ht2, ht3⟩
  · obtain ⟨t, hgl, hmax, hmem, hp3⟩ := hlast
    refine ⟨mkBlock y m r nm t, ?_, ?_, ?_⟩
    · rw [List.getLast?_map, hgl]
      rfl
    · rw [weekdayDatesOfMonth_eq y m hy hy2 hm hm2]
      exact List.mem_map.mpr ⟨t.2.1, hmem, rfl⟩
    · intro dt hdt
      rw [weekdayDatesOfMonth_eq y m hy hy2 hm hm2] at hdt
      obtain ⟨d, hd, rfl⟩ := List.mem_map.mp hdt
      exact hmax d hd

theorem C6_block_bounds_witness :
    (1 ≤ 2021 ∧ 2021 ≤ 9999 ∧ 1 ≤ 2 ∧ 2 ≤ 12 ∧
      generate_weekly_schedule 2021 2 0 "" = .ok feb2021blocks)
    ∧ ((∀ b ∈ feb2021blocks, 1 ≤ blockWeekdayCount b ∧ blockWeekdayCount b ≤ 5
        ∧ b.start_date.month = 2 ∧ b.start_date.year = 2021
        ∧ b.end_date.month = 2 ∧ b.end_date.year = 2021
        ∧ 1 ≤ b.start_date.day ∧ b.start_date.day ≤ b.end_date.day
        ∧ b.end_date.day ≤ daysInMonth 2021 2)
      ∧ (∃ b, feb2021blocks.getLast? = some b ∧ b.end_date ∈ weekdayDatesOfMonth 2021 2
          ∧ ∀ dt ∈ weekdayDatesOfMonth 2021 2, dt.day ≤ b.end_date.day)) :=
  ⟨⟨by omega, by omega, by omega, by omega, rfl⟩,
    C6_block_bounds 2021 2 0 "" feb2021blocks (by omega) (by omega) (by omega) (by omega) rfl⟩

/-- C7: for every valid (year, month), every returned block except
possibly the final one ends on a Friday, and advancing the final block's
end date by 3 calendar days always leaves the target month (so the
+3-day cursor advance after the final, possibly partial, block never
adds another block). -/
theorem C7_friday_ends (y m : Nat) (r : ℚ) (nm : String) (bs : List Block)
    (hy : 1 ≤ y) (hy2 : y ≤ 9999) (hm : 1 ≤ m) (hm2 : m ≤ 12)
    (hok : generate_weekly_schedule y m r nm = .ok bs) :
    (∀ b ∈ bs.dropLast, b.end_date.weekday = 4)
    ∧ (∃ b, bs.getLast? = some b ∧ daysInMonth y m < b.end_date.day + 3 ∧
        ∀ d2, addDays b.end_date 3 = .ok d2 → d2.month ≠ m) := by
  obtain ⟨l, hsp, hmap, hnot⟩ := gen_ok_elim y m r nm bs hy hy2 hm hm2 hok
  have hw7 := Date.weekday_lt (Date.mk y m 1)
  have hbnd := daysInMonth_bounds y m
  obtain ⟨-, -, hall, -, hlast, hfri, -⟩ := blocks_facts _ _ hw7 hbnd.1 hbnd.2 l hsp
  subst hmap
  constructor
  · intro b hb
    rw [← List.map_dropLast] at hb
    obtain ⟨t, ht, rfl⟩ := List.mem_map.mp hb
    have htl : t ∈ l := (List.dropLast_sublist l).subset ht
    obtain ⟨ht1, ht2, ht3, -, -, -⟩ := hall t htl
    have hwd := posD_weekday y m (daysInMonth y m) t.2.1 hy hm hm2 rfl (by omega) (by omega)
    rw [show posD y m (daysInMonth y m) t.2.1 = ⟨y, m, t.2.1⟩ from if_pos ht3] at hwd
    show (⟨y, m, t.2.1⟩ : Date).weekday = 4
    rw [hwd]
    exact hfri t ht
  · obtain ⟨t, hgl, hmax, hmem, hp3⟩ := hlast
    have hbounds : 1 ≤ t.2.1 ∧ t.2.1 ≤ daysInMonth y m := by
      unfold weekdayDaysB at hmem
      have hr2 := (List.mem_filter.mp hmem).1
      rw [List.mem_range'] at hr2
      obtain ⟨i, hi, hdi⟩ := hr2
      omega
    refine ⟨mkBlock y m r nm t, ?_, hp3, ?_⟩
    · rw [List.getLast?_map, hgl]
      rfl
    · intro d2 hd2
      rw [show (mkBlock y m r nm t).end_date = posD y m (daysInMonth y m) t.2.1 from
        (if_pos hbounds.2).symm] at hd2
      rw [posD_addDays3 y m (daysInMonth y m) t.2.1 hy hy2 hm hm2 rfl hbounds.1 hbounds.2
        hnot] at hd2
      injection hd2 with hd2
      subst hd2
      intro hcc
      have hmon := (posD_month y m (daysInMonth y m) (t.2.1 + 3) hm hm2).mp hcc
      omega

theorem C7_friday_ends_witness :
    (1 ≤ 2025 ∧ 2025 ≤ 9999 ∧ 1 ≤ 3 ∧ 3 ≤ 12 ∧
      generate_weekly_schedule 2025 3 0 "" = .ok mar2025blocks)
    ∧ ((∀ b ∈ mar2025blocks.dropLast, b.end_date.weekday = 4)
      ∧ (∃ b, mar2025blocks.getLast? = some b ∧ daysInMonth 2025 3 < b.end_date.day + 3 ∧
          ∀ d2, addDays b.end_date 3 = .ok d2 → d2.month ≠ 3)) :=
  ⟨⟨by omega, by omega, by omega, by omega, rfl⟩,
    C7_friday_ends 2025 3 0 "" mar2025blocks (by omega) (by omega) (by omega) (by omega) rfl⟩

/-- C8: every returned block's description is the block's start and end
dates rendered as MM-DD-YYYY (two-digit zero-padded month and day,
four-digit zero-padded year) joined by " - ". -/
theorem C8_description_format (y m : Nat) (r : ℚ) (nm : String) (bs : List Block)
    (hy : 1 ≤ y) (hy2 : y ≤ 9999) (hm : 1 ≤ m) (hm2 : m ≤ 12)
    (hok : generate_weekly_schedule y m r nm = .ok bs) :
    ∀ b ∈ bs,
      b.dict.description = fmtDate b.start_date ++ " - " ++ fmtDate b.end_date
      ∧ fmtDate b.start_date =
          pad2 b.start_date.month ++ "-" ++ pad2 b.start_date.day ++ "-" ++ pad4 b.start_date.year
      ∧ fmtDate b.end_date =
          pad2 b.end_date.month ++ "-" ++ pad2 b.end_date.day ++ "-" ++ pad4 b.end_date.year
      ∧ (pad2 b.start_date.month).length = 2 ∧ (pad2 b.start_date.day).length = 2
      ∧ (pad4 b.start_date.year).length = 4
      ∧ (pad2 b.end_date.month).length = 2 ∧ (pad2 b.end_date.day).length = 2
      ∧ (pad4 b.end_date.year).length = 4 := by
  obtain ⟨l, hsp, hmap, hnot⟩ := gen_ok_elim y m r nm bs hy hy2 hm hm2 hok
  have hw7 := Date.weekday_lt (Date.mk y m 1)
  have hbnd := daysInMonth_bounds y m
  obtain ⟨-, -, hall, -, -, -, -⟩ := blocks_facts _ _ hw7 hbnd.1 hbnd.2 l hsp
  subst hmap
  intro b hb
  obtain ⟨t, ht, rfl⟩ := List.mem_map.mp hb
  obtain ⟨ht1, ht2, ht3, -, -, -⟩ := hall t ht
  refine ⟨rfl, rfl, rfl, ?_, ?_, ?_, ?_, ?_, ?_⟩
  · exact pad2_length _ (by show m < 100; omega)
  · exact pad2_length _ (by show t.1 < 100; omega)
  · exact pad4_length _ (by show y < 10000; omega)
  · exact pad2_length _ (by show m < 100; omega)
  · exact pad2_length _ (by show t.2.1 < 100; omega)
  · exact pad4_length _ (by show y < 10000; omega)

theorem C8_description_format_witness :
    (1 ≤ 2021 ∧ 2021 ≤ 9999 ∧ 1 ≤ 2 ∧ 2 ≤ 12 ∧
      generate_weekly_schedule 2021 2 0 "" = .ok feb2021blocks)
    ∧ (∀ b ∈ feb2021blocks,
        b.dict.description = fmtDate b.start_date ++ " - " ++ fmtDate b.end_date
        ∧ fmtDate b.start_date =
            pad2 b.start_date.month ++ "-" ++ pad2 b.start_date.day ++ "-" ++ pad4 b.start_date.year
        ∧ fmtDate b.end_date =
            pad2 b.end_date.month ++ "-" ++ pad2 b.end_date.day ++ "-" ++ pad4 b.end_date.year
        ∧ (pad2 b.start_date.month).length = 2 ∧ (pad2 b.start_date.day).length = 2
        ∧ (pad4 b.start_date.year).length = 4
        ∧ (pad2 b.end_date.month).length = 2 ∧ (pad2 b.end_date.day).length = 2
        ∧ (pad4 b.end_date.year).length = 4) :=
  ⟨⟨by omega, by omega, by omega, by omega, rfl⟩,
    C8_description_format 2021 2 0 "" feb2021blocks (by omega) (by omega) (by omega) (by omega)
      rfl⟩

/-- C9: each schedule dictionary serialized for the vendor payload
carries the stringified quantity, the date-range description, the input
rate, the caller-supplied line-item name verbatim, the total, and the
fixed unit tag "QUANTITY", identical across blocks and independent of
all inputs. -/
theorem C9_payload_fields (y m : Nat) (r : ℚ) (nm : String) (items : List ApiItem)
    (hy : 1 ≤ y) (hy2 : y ≤ 9999) (hm : 1 ≤ m) (hm2 : m ≤ 12)
    (hok : choose_items_payload y m r nm = .ok items) :
    ∃ bs, generate_weekly_schedule y m r nm = .ok bs
      ∧ get_invoice_items y m r nm = .ok (bs.map Block.dict)
      ∧ items = (bs.map Block.dict).map toApiItem
      ∧ (∀ w ∈ bs.map Block.dict, w.name = nm ∧ w.rate = r ∧
          toApiItem w = { quantity := toString w.quantity, igstApplicable := true,
                          isMaxAmountBreach := false, description := w.description, sac := none,
                          rate := w.rate, igst := none, cgst := none, sgst := none,
                          name := w.name, unit := "QUANTITY", total := w.total })
      ∧ (∀ it ∈ items, it.unit = "QUANTITY" ∧ it.name = nm ∧ it.rate = r) := by
  cases hg : generate_weekly_schedule y m r nm with
  | error e =>
    have herr : choose_items_payload y m r nm = .error e := by
      unfold choose_items_payload get_invoice_items
      rw [hg]
      rfl
    rw [herr] at hok
    exact Except.noConfusion hok
  | ok bs =>
    have hitems : items = (bs.map Block.dict).map toApiItem := by
      unfold choose_items_payload get_invoice_items at hok
      rw [hg] at hok
      replace hok :
          (Except.ok ((bs.map Block.dict).map toApiItem) : Except PyErr (List ApiItem))
            = .ok items := hok
      injection hok with hok
      exact hok.symm
    obtain ⟨l, hsp, hmap, hnot⟩ := gen_ok_elim y m r nm bs hy hy2 hm hm2 hg
    subst hmap
    refine ⟨l.map (mkBlock y m r nm), rfl, ?_, hitems, ?_, ?_⟩
    · unfold get_invoice_items
      rw [hg]
      rfl
    · intro w hw
      rw [List.map_map] at hw
      obtain ⟨t, ht, rfl⟩ := List.mem_map.mp hw
      exact ⟨rfl, rfl, rfl⟩
    · intro it hit
      rw [hitems, List.map_map, List.map_map] at hit
      obtain ⟨t, ht, rfl⟩ := List.mem_map.mp hit
      exact ⟨rfl, rfl, rfl⟩

theorem C9_payload_fields_witness :
    (1 ≤ 2021 ∧ 2021 ≤ 9999 ∧ 1 ≤ 2 ∧ 2 ≤ 12 ∧
      choose_items_payload 2021 2 0 "" = .ok ((feb2021blocks.map Block.dict).map toApiItem))
    ∧ (∃ bs, generate_weekly_schedule 2021 2 0 "" = .ok bs
        ∧ get_invoice_items 2021 2 0 "" = .ok (bs.map Block.dict)
        ∧ (feb2021blocks.map Block.dict).map toApiItem = (bs.map Block.dict).map toApiItem
        ∧ (∀ w ∈ bs.map Block.dict, w.name = "" ∧ w.rate = 0 ∧
            toApiItem w = { quantity := toString w.quantity, igstApplicable := true,
                            isMaxAmountBreach := false, description := w.description,
                            sac := none, rate := w.rate, igst := none, cgst := none,
                            sgst := none, name := w.name, unit := "QUANTITY",
                            total := w.total })
        ∧ (∀ it ∈ (feb2021blocks.map Block.dict).map toApiItem,
            it.unit = "QUANTITY" ∧ it.name = "" ∧ it.rate = 0)) :=
  ⟨⟨by omega, by omega, by omega, by omega, rfl⟩,
    C9_payload_fields 2021 2 0 "" ((feb2021blocks.map Block.dict).map toApiItem)
      (by omega) (by omega) (by omega) (by omega) rfl⟩

/-- C10 counterexample: for the valid pair (9999, 12) the function does
not return a list at all: the day walk overflows the date range and the
call raises, so "always returns a non-empty list" fails. -/
theorem C10_counterexample :
    ValidYM 9999 12 ∧ get_invoice_items 9999 12 2 "y" = .error .overflowError := by
  refine ⟨by decide, ?_⟩
  unfold get_invoice_items
  rw [gen_dec_9999 2 "y"]
  rfl

/-- C10 (amended): for every valid (year, month) other than (9999, 12),
whose day walk overflows the date range and raises instead, the function
returns a non-empty list of 4 or 5 blocks. -/
theorem C10_block_count (y m : Nat) (r : ℚ) (nm : String)
    (hy : 1 ≤ y) (hy2 : y ≤ 9999) (hm : 1 ≤ m) (hm2 : m ≤ 12)
    (hnot : ¬(y = 9999 ∧ m = 12)) :
    ∃ ws, get_invoice_items y m r nm = .ok ws ∧ ws ≠ [] ∧ (ws.length = 4 ∨ ws.length = 5) := by
  have hw7 := Date.weekday_lt (Date.mk y m 1)
  have hbnd := daysInMonth_bounds y m
  obtain ⟨l, hsp⟩ := blocksSpec_some (Date.mk y m 1).weekday (daysInMonth y m) hw7 hbnd.1 hbnd.2
  obtain ⟨-, -, -, -, -, -, hlen⟩ := blocks_facts _ _ hw7 hbnd.1 hbnd.2 l hsp
  have hbr := scheduleBridge y m r nm hy hy2 hm hm2 hnot
  rw [hsp] at hbr
  refine ⟨(l.map (mkBlock y m r nm)).map Block.dict, ?_, ?_, ?_⟩
  · unfold get_invoice_items
    rw [hbr]
    rfl
  · intro hnil
    have h0 := congrArg List.length hnil
    rw [List.length_map, List.length_map, List.length_nil] at h0
    omega
  · rw [List.length_map, List.length_map]
    exact hlen

theorem C10_block_count_witness :
    (1 ≤ 2021 ∧ 2021 ≤ 9999 ∧ 1 ≤ 2 ∧ 2 ≤ 12 ∧ ¬((2021 : Nat) = 9999 ∧ (2 : Nat) = 12))
    ∧ ∃ ws, get_invoice_items 2021 2 3 "z" = .ok ws ∧ ws ≠ []
        ∧ (ws.length = 4 ∨ ws.length = 5) :=
  ⟨⟨by omega, by omega, by omega, by omega, by omega⟩,
    C10_block_count 2021 2 3 "z" (by omega) (by omega) (by omega) (by omega) (by omega)⟩
